import Mathlib

/-!
Shallow embedding of `src/deepseek_export.py` (DeepSeek Chat Export Tool)
and verification of the frozen claims about it.

The program is a single-pass batch transform: parse a JSON document,
iterate over its thread objects, extract conversational turns from each
thread's message mapping, sort them by a numeric id embedded in the
message keys, render each thread as a Markdown document, and emit an
index document with per-thread rows and aggregate totals.

Modelling conventions:
* Python strings are `String`/`List Char`; the character-level pipeline of
  `sanitize_filename` operates on `List Char`.
* JSON values are the inductive `JValue`; Python `dict`s are association
  lists in insertion order (as produced by `json.load`).
* Python integer formatting (`str`, `f"{i:03d}"`) is `natDigits`/`pad3`.
* OS and library effects that the claims do not compute with are oracle
  parameters collected in `Env`: `os.path.getsize` of the file just
  written (a function of its content), `datetime` formatting, and the
  `%.1f`/`%.2f` float renderings of sizes and averages.
* Fallible Python code returns `Except Unit`: an `error` value is an
  uncaught exception (`AttributeError`/`TypeError`) escaping
  `export_threads`; no claim exercises those paths.
-/

/-! ### Characters and digits -/

/-- The characters removed by `re.sub(r'[<>:"/\\|?*]', '_', ...)`
(line 23 of the source). -/
def invalidChar (c : Char) : Bool :=
  c == '<' || c == '>' || c == ':' || c == '"' || c == '/' ||
  c == '\\' || c == '|' || c == '?' || c == '*'

/-- The characters removed by `re.sub(r'[\x00-\x1f\x7f]', '', ...)`
(line 24): ASCII control characters. -/
def controlChar (c : Char) : Bool :=
  c.toNat ≤ 31 || c.toNat == 127

/-- The character set of `filename.strip('._ ')` (line 25). -/
def stripSet (c : Char) : Bool :=
  c == '.' || c == '_' || c == ' '

/-- Strip characters satisfying `p` from both ends of a list:
Python `str.strip` with an explicit character set. -/
def stripChars (p : Char → Bool) (l : List Char) : List Char :=
  ((l.dropWhile p).reverse.dropWhile p).reverse

/-- `re.sub(r'_+', '_', ...)` (line 28): collapse every run of
underscores to a single underscore.  Structurally recursive formulation
keeping the last underscore of each run (extensionally the same as
keeping one per run). -/
def collapseUnderscores : List Char → List Char
  | [] => []
  | [c] => [c]
  | a :: b :: rest =>
    if a == '_' && b == '_' then collapseUnderscores (b :: rest)
    else a :: collapseUnderscores (b :: rest)

/-- The decimal digit character for `n % 10`. -/
def digitChar10 (n : Nat) : Char :=
  match n with
  | 0 => '0' | 1 => '1' | 2 => '2' | 3 => '3' | 4 => '4'
  | 5 => '5' | 6 => '6' | 7 => '7' | 8 => '8' | _ => '9'

/-- Fuel-based production of the decimal digits of `n` (most significant
first), prepended to `acc`.  `natDigits n` supplies fuel `n`, which is
always sufficient. -/
def natDigitsAux : Nat → Nat → List Char → List Char
  | 0, n, acc => digitChar10 (n % 10) :: acc
  | fuel + 1, n, acc =>
    if n < 10 then digitChar10 (n % 10) :: acc
    else natDigitsAux fuel (n / 10) (digitChar10 (n % 10) :: acc)

/-- Python `str(n)` for a natural number: its decimal digits. -/
def natDigits (n : Nat) : List Char :=
  natDigitsAux n n []

/-- Python `str(n)` as a `String`. -/
def natStr (n : Nat) : String :=
  String.mk (natDigits n)

/-- Python `str(n)` for an integer. -/
def intStr (n : Int) : String :=
  if n < 0 then "-" ++ natStr n.natAbs else natStr n.toNat

/-- The numeric value of a digit string (MSB first), as computed by
Python `int(...)` on a run of digits. -/
def digitsVal (l : List Char) : Nat :=
  l.foldl (fun acc c => 10 * acc + (c.toNat - 48)) 0

/-- `f"{n:03d}"` (line 154): the decimal digits of `n` left-padded with
zeros to at least three characters. -/
def pad3 (n : Nat) : List Char :=
  List.replicate (3 - (natDigits n).length) '0' ++ natDigits n

/-! ### `sanitize_filename` (source lines 15-40) -/

/-- `filename.replace(' ', '_')` (line 20). -/
def spacesToUnderscores (l : List Char) : List Char :=
  l.map fun c => if c == ' ' then '_' else c

/-- `re.sub(r'[<>:"/\\|?*]', '_', filename)` (line 23). -/
def replaceInvalid (l : List Char) : List Char :=
  l.map fun c => if invalidChar c then '_' else c

/-- `re.sub(r'[\x00-\x1f\x7f]', '', filename)` (line 24). -/
def removeControl (l : List Char) : List Char :=
  l.filter fun c => !controlChar c

/-- Lines 19-28 of `sanitize_filename`: everything before the length
truncation. -/
def sanitizePre (l : List Char) (replaceSpaces : Bool) : List Char :=
  collapseUnderscores (stripChars stripSet (removeControl (replaceInvalid
    (if replaceSpaces then spacesToUnderscores l else l))))

/-- The index of the last `'.'` in the list, if any (`str.rfind('.')`). -/
def lastDotIdxAux : List Char → Nat → Option Nat → Option Nat
  | [], _, acc => acc
  | c :: cs, i, acc => lastDotIdxAux cs (i + 1) (if c == '.' then some i else acc)

def lastDotIdx (l : List Char) : Option Nat :=
  lastDotIdxAux l 0 none

/-- `os.path.splitext` on a bare filename (no path separators): split at
the last dot, except when every character before that dot is itself a
dot (CPython skips the leading dots of the basename). -/
def splitext (l : List Char) : List Char × List Char :=
  match lastDotIdx l with
  | none => (l, [])
  | some d =>
    if (l.take d).all (fun c => c == '.') then (l, [])
    else (l.take d, l.drop d)

/-- Python `s[:j]` for an `int` bound `j`: a nonnegative bound takes at
most `j` characters, a negative bound drops `|j|` characters from the
end. -/
def pyTake (l : List Char) (j : Int) : List Char :=
  if 0 ≤ j then l.take j.toNat else l.take (l.length - (-j).toNat)

/-- Lines 31-34: if the name is longer than 200 characters, split off
the extension and cut the stem to `200 - len(ext)` characters (a Python
slice, hence negative bounds drop from the end). -/
def truncateName (l : List Char) : List Char :=
  if 200 < l.length then
    pyTake (splitext l).1 (200 - ((splitext l).2.length : Int)) ++ (splitext l).2
  else l

/-- The sanitized name before the empty-name fallback. -/
def sanitizeCore (l : List Char) (replaceSpaces : Bool) : List Char :=
  truncateName (sanitizePre l replaceSpaces)

/-- `sanitize_filename` (source lines 15-40): make a title safe for the
filesystem, falling back to `'unnamed_thread'` when the result is empty
or a lone underscore. -/
def sanitize_filename (s : String) (replaceSpaces : Bool) : String :=
  if sanitizeCore s.data replaceSpaces = [] ∨ sanitizeCore s.data replaceSpaces = ['_']
  then "unnamed_thread"
  else String.mk (sanitizeCore s.data replaceSpaces)

/-! ### JSON values and Python semantics -/

/-- JSON documents as loaded by `json.load`.  Objects are association
lists in insertion order, matching Python `dict` iteration; numbers are
modelled as integers (no claim computes with a JSON number, they only
matter as non-string values). -/
inductive JValue where
  | null
  | bool (b : Bool)
  | num (n : Int)
  | str (s : String)
  | arr (items : List JValue)
  | obj (fields : List (String × JValue))

/-- Python `d.get(k)` on a dict built by `json.load`. -/
def jLookup (fields : List (String × JValue)) (k : String) : Option JValue :=
  (fields.find? (fun p => p.1 == k)).map (fun p => p.2)

def JValue.isObj : JValue → Bool
  | .obj _ => true
  | _ => false

/-- Python truthiness of a JSON value. -/
def pyTruthy : JValue → Bool
  | .null => false
  | .bool b => b
  | .num n => n != 0
  | .str s => s != ""
  | .arr xs => !xs.isEmpty
  | .obj fs => !fs.isEmpty

/-- Python `repr` of a string: quoted, preferring single quotes, with
the quote character, backslashes and common control characters escaped
(`\xNN` escapes of other control characters are not modelled; no claim
evaluates them). -/
def pyEscapeChar (quote : Char) (c : Char) : String :=
  if c == '\\' then "\\\\"
  else if c == quote then "\\" ++ String.mk [quote]
  else if c == '\n' then "\\n"
  else if c == '\r' then "\\r"
  else if c == '\t' then "\\t"
  else String.mk [c]

def pyReprStr (s : String) : String :=
  let q := if s.data.contains '\x27' && !(s.data.contains '"') then '"' else '\x27'
  String.mk [q] ++ String.join (s.data.map (pyEscapeChar q)) ++ String.mk [q]

-- Python `repr` of a JSON value (used by `str` on containers).
mutual

def pyReprV : JValue → String
  | .null => "None"
  | .bool true => "True"
  | .bool false => "False"
  | .num n => intStr n
  | .str s => pyReprStr s
  | .arr xs => "[" ++ pyReprList xs ++ "]"
  | .obj fs => "\x7b" ++ pyReprFields fs ++ "\x7d"

def pyReprList : List JValue → String
  | [] => ""
  | [x] => pyReprV x
  | x :: rest => pyReprV x ++ ", " ++ pyReprList rest

def pyReprFields : List (String × JValue) → String
  | [] => ""
  | [(k, v)] => pyReprStr k ++ ": " ++ pyReprV v
  | (k, v) :: rest => pyReprStr k ++ ": " ++ pyReprV v ++ ", " ++ pyReprFields rest
end

/-- Python `str` of a JSON value, as interpolated by an f-string. -/
def pyStrV : JValue → String
  | .str s => s
  | .null => "None"
  | .bool true => "True"
  | .bool false => "False"
  | .num n => intStr n
  | v => pyReprV v

/-- Python `str.strip()` whitespace (ASCII; exotic Unicode whitespace is
not modelled, no claim depends on it). -/
def pyIsSpace (c : Char) : Bool :=
  c == ' ' || c == '\t' || c == '\n' || c == '\r' || c == '\x0b' || c == '\x0c'

/-- Python `s.strip()`. -/
def pyStripWS (s : String) : List Char :=
  ((s.data.dropWhile pyIsSpace).reverse.dropWhile pyIsSpace).reverse

/-- Python `for x in v`: lists yield their items, strings their
characters, dicts their keys; other values raise `TypeError`. -/
def pyIterate : JValue → Except Unit (List JValue)
  | .arr xs => .ok xs
  | .str s => .ok (s.data.map (fun c => .str (String.mk [c])))
  | .obj fs => .ok (fs.map (fun p => .str p.1))
  | _ => .error ()

/-! ### Turn extraction (source lines 177-201) -/

/-- One entry of `all_messages`: the message key it came from, the
fragment's `type` value, and its (string) content. -/
structure Turn where
  id : String
  type : JValue
  content : String

/-- Lines 191-201: process one element of `fragments`.  Non-dict
fragments are skipped; a fragment with truthy content appends a turn
when `content.strip()` is also truthy.  `content.strip()` on a truthy
non-string raises `AttributeError`. -/
def fragTurn (msgId : String) (frag : JValue) : Except Unit (List Turn) :=
  match frag with
  | .obj fs =>
    let ty := (jLookup fs "type").getD (.str "")
    let co := (jLookup fs "content").getD (.str "")
    if pyTruthy co then
      match co with
      | .str s => if !(pyStripWS s).isEmpty then .ok [⟨msgId, ty, s⟩] else .ok []
      | _ => .error ()
    else .ok []
  | _ => .ok []

def fragsTurns (msgId : String) : List JValue → Except Unit (List Turn)
  | [] => .ok []
  | f :: rest =>
    match fragTurn msgId f with
    | .error e => .error e
    | .ok t =>
      match fragsTurns msgId rest with
      | .error e => .error e
      | .ok ts => .ok (t ++ ts)

/-- Lines 182-201: walk `mapping.items()` in insertion order, skipping
the `root` entry, non-dict values, and entries whose `message` field is
missing, falsy, or not a dict; collect the remaining fragments' turns. -/
def extractTurns : List (String × JValue) → Except Unit (List Turn)
  | [] => .ok []
  | (msgId, msgData) :: rest =>
    match msgData with
    | .obj fs =>
      if msgId == "root" then extractTurns rest
      else
        match jLookup fs "message" with
        | some (.obj ms) =>
          if ms.isEmpty then extractTurns rest
          else
            match pyIterate ((jLookup ms "fragments").getD (.arr [])) with
            | .error e => .error e
            | .ok frags =>
              match fragsTurns msgId frags with
              | .error e => .error e
              | .ok ts =>
                match extractTurns rest with
                | .error e => .error e
                | .ok rest2 => .ok (ts ++ rest2)
        | _ => extractTurns rest
    | _ => extractTurns rest

/-! ### Sorting (source lines 203-211) -/

/-- `extract_numeric_id` (lines 205-207): the integer value of the first
maximal digit run of the key; `none` stands for `float('inf')` when the
key contains no digit. -/
def extract_numeric_id (s : String) : Option Nat :=
  match s.data.dropWhile (fun c => !c.isDigit) with
  | [] => none
  | l => some (digitsVal (l.takeWhile Char.isDigit))

/-- Comparison of sort keys: `float('inf')` (`none`) is greater than
every extracted id. -/
def keyLE : Option Nat → Option Nat → Bool
  | _, none => true
  | none, some _ => false
  | some a, some b => a ≤ b

def turnKey (m : Turn) : Option Nat :=
  extract_numeric_id m.id

def turnLE (a b : Turn) : Prop :=
  keyLE (turnKey a) (turnKey b) = true

instance : DecidableRel turnLE := fun a b => by
  unfold turnLE; infer_instance

instance : IsTotal Turn turnLE where
  total a b := by
    unfold turnLE
    rcases turnKey a with _ | x <;> rcases turnKey b with _ | y <;>
      simp [keyLE] <;> omega

instance : IsTrans Turn turnLE where
  trans a b c := by
    unfold turnLE
    rcases turnKey a with _ | x <;> rcases turnKey b with _ | y <;>
      rcases turnKey c with _ | z <;> simp [keyLE] <;> omega

/-- `all_messages.sort(key=lambda x: extract_numeric_id(x['id']))`
(line 209): Python `list.sort` is a stable sort by key, modelled by
insertion sort (which is stable).  The surrounding `try/except` never
fires: the key function is total on strings. -/
def sortTurns (l : List Turn) : List Turn :=
  List.insertionSort turnLE l

/-! ### Rendering one thread file (source lines 160-235) -/

/-- Python `v == s` for a string literal `s`: only equal strings
compare equal, any non-string value compares unequal. -/
def isStrEq (v : JValue) (s : String) : Bool :=
  match v with
  | .str t => t == s
  | _ => false

/-- Lines 222-227: the heading a turn is written under. -/
def headingFor (ty : JValue) : String :=
  if isStrEq ty "REQUEST" then "### 👤 Sie\n\n"
  else if isStrEq ty "RESPONSE" then "### 🤖 DeepSeek\n\n"
  else "### " ++ pyStrV ty ++ "\n\n"

/-- Lines 222-229: one turn as written to the file. -/
def renderTurn (m : Turn) : String :=
  headingFor m.type ++ m.content ++ "\n\n"

/-- The message loop of lines 216-231, with `i` the `enumerate` index
and `total` the length of `all_messages` (used by the truncation note).
Returns the text written and the number of messages written. -/
def writeMsgsGo (maxM : Option Nat) (total : Nat) : Nat → List Turn → String × Nat
  | _, [] => ("", 0)
  | i, m :: rest =>
    if (match maxM with | none => false | some k => k != 0) && decide (maxM.getD 0 ≤ i) then
      ("\n> *Hinweis: " ++ natStr (total - maxM.getD 0) ++ " weitere Nachrichten gekürzt.*\n", 0)
    else
      let p := writeMsgsGo maxM total (i + 1) rest
      (renderTurn m ++ p.1, p.2 + 1)

/-- Python truthiness of the `max_threads` / `max_messages_per_file`
parameters (`None` or an `int`). -/
def optTruthy : Option Nat → Bool
  | none => false
  | some k => k != 0

def writeMessages (maxM : Option Nat) (msgs : List Turn) : String × Nat :=
  writeMsgsGo maxM msgs.length 0 msgs

/-- Lines 166-172: the `- Erstellt:` metadata line, present when
`inserted_at` is truthy.  `fmtDate` is the oracle for
`datetime.fromisoformat(...).strftime(...)`; `none` means the parse
raised, in which case the raw value is written.  A truthy non-string
raises inside the same `try`, with the same fallback. -/
def erstelltLine (fmtDate : String → Option String) (inserted : JValue) : String :=
  if pyTruthy inserted then
    "- Erstellt: " ++
      (match inserted with
       | .str s => (fmtDate s).getD s
       | v => pyStrV v) ++ "\n"
  else ""

/-- Lines 160-235: the full content of one thread's Markdown file, and
the number of messages written (`thread_messages`). -/
def threadFileContent (fmtDate : String → Option String) (maxM : Option Nat)
    (title : String) (threadId inserted : JValue) (filename : String)
    (mapping : List (String × JValue)) : Except Unit (String × Nat) :=
  match extractTurns mapping with
  | .error e => .error e
  | .ok turns =>
    let bw := writeMessages maxM (sortTurns turns)
    .ok ("# " ++ title ++ "\n\n" ++
       "**Metadaten:**\n" ++
       "- Thread-ID: `" ++ pyStrV threadId ++ "`\n" ++
       erstelltLine fmtDate inserted ++
       "- Datei: `" ++ filename ++ "`\n" ++
       "\n---\n\n" ++
       "## Chat-Verlauf\n\n" ++
       bw.1 ++
       "---\n\n" ++
       "**Statistik:** " ++ natStr bw.2 ++ " Nachrichten\n",
       bw.2)

/-! ### The export run (source lines 90-301) -/

/-- The OS and library effects `export_threads` uses, as oracles:
* `getsize c` — `os.path.getsize` of a file that was just written with
  content `c` (in bytes);
* `fmtDate` — `datetime.fromisoformat(s.replace('Z','+00:00'))` plus
  `strftime('%d.%m.%Y %H:%M:%S')`, `none` when parsing raises;
* `exportDate` — `datetime.now().strftime('%d.%m.%Y %H:%M:%S')`;
* `folder` — the `create_thread_folder` result (a timestamped name);
* `inputFile` — the input path as interpolated into the index header;
* `fmtKB b` — the `f"{b/1024:.1f}"` rendering of a byte count;
* `fmtMB k` — the `f"{k/1024:.2f}"` rendering of a summed KB value
  (the model passes the summed byte count);
* `fmtAvg m t` — the `f"{m/t:.1f}"` rendering of the average. -/
structure Env where
  getsize : String → Nat
  fmtDate : String → Option String
  exportDate : String
  folder : String
  inputFile : String
  fmtKB : Nat → String
  fmtMB : Nat → String
  fmtAvg : Nat → Nat → String

/-- One entry of the `stats` list (lines 241-247); `sizeBytes` is the
`os.path.getsize` result whose `/1024` rendering the index shows. -/
structure Row where
  idx : Nat
  filename : String
  title : String
  messages : Nat
  sizeBytes : Nat

/-- The mutable state of the export loop: written thread files, the
`stats` list, the `total_threads` and `total_messages` counters, and the
index rows appended so far. -/
structure ExportState where
  files : List (String × String)
  rows : List Row
  totalThreads : Nat
  totalMessages : Nat
  indexRows : String

/-- Line 254: one row of the index table. -/
def rowLine (env : Env) (r : Row) : String :=
  "| " ++ natStr r.idx ++ " | [" ++ r.filename ++ "](./" ++ r.filename ++
  ") | " ++ r.title ++ " | " ++ natStr r.messages ++ " | " ++
  env.fmtKB r.sizeBytes ++ " KB |\n"

/-- Line 147: `thread.get('title', f'Thread_{thread_idx}')`, followed by
line 151's `sanitize_filename(title, ...)`, which calls `.replace` on
the title and therefore raises on a non-string. -/
def getTitle (fields : List (String × JValue)) (idx : Nat) : Except Unit String :=
  match jLookup fields "title" with
  | none => .ok ("Thread_" ++ natStr idx)
  | some (.str s) => .ok s
  | some _ => .error ()

/-- Line 178: `thread.get('mapping', {})`, followed by line 182's
`mapping.items()`, which raises on a non-dict. -/
def getMapping (fields : List (String × JValue)) : Except Unit (List (String × JValue)) :=
  match jLookup fields "mapping" with
  | none => .ok []
  | some (.obj fs) => .ok fs
  | some _ => .error ()

/-- Line 154: `f"{thread_idx:03d}_{safe_title}.md"`. -/
def threadFilename (idx : Nat) (safeTitle : String) : String :=
  String.mk (pad3 idx) ++ "_" ++ safeTitle ++ ".md"

/-- Lines 137-254: the per-thread loop.  `idx` is the 1-based
`enumerate` counter; a truthy `max_threads` smaller than `idx` breaks
the loop; non-dict thread entries are skipped.  An `error` result is an
exception escaping `export_threads` (the partially written current file
is not modelled further; no claim concerns it). -/
def exportLoop (env : Env) (maxT maxM : Option Nat) :
    Nat → List JValue → ExportState → Except Unit ExportState
  | _, [], st => .ok st
  | idx, t :: rest, st =>
    if optTruthy maxT && decide (maxT.getD 0 < idx) then .ok st
    else
      match t with
      | .obj fs =>
        match getTitle fs idx with
        | .error e => .error e
        | .ok title =>
          match getMapping fs with
          | .error e => .error e
          | .ok mapping =>
            match threadFileContent env.fmtDate maxM title
                ((jLookup fs "id").getD (.str ""))
                ((jLookup fs "inserted_at").getD (.str ""))
                (threadFilename idx (sanitize_filename title true)) mapping with
            | .error e => .error e
            | .ok cn =>
              exportLoop env maxT maxM (idx + 1) rest
                ⟨st.files ++ [(threadFilename idx (sanitize_filename title true), cn.1)],
                 st.rows ++ [⟨idx, threadFilename idx (sanitize_filename title true),
                   title, cn.2, env.getsize cn.1⟩],
                 st.totalThreads + 1, st.totalMessages + cn.2,
                 st.indexRows ++ rowLine env ⟨idx,
                   threadFilename idx (sanitize_filename title true),
                   title, cn.2, env.getsize cn.1⟩⟩
      | _ => exportLoop env maxT maxM (idx + 1) rest st

/-- Lines 123-130: the index header written before the loop.
`threadCount` is `len(data) if isinstance(data, list) else 1`. -/
def indexHeader (env : Env) (threadCount : Nat) : String :=
  "# DeepSeek Chat Export\n\n" ++
  "**Quelldatei:** `" ++ env.inputFile ++ "`\n" ++
  "**Export-Datum:** " ++ env.exportDate ++ "\n" ++
  "**Anzahl Threads:** " ++ natStr threadCount ++ "\n\n" ++
  "## Thread-Übersicht\n\n" ++
  "| Nr. | Datei | Titel | Nachrichten | Größe |\n" ++
  "|-----|-------|-------|-------------|-------|\n"

/-- `max(stats, key=...)`: the first element attaining the maximum
(CPython replaces the current best only on a strictly greater key). -/
def pyMaxBy (f : Row → Nat) (x : Row) (xs : List Row) : Row :=
  xs.foldl (fun cur y => if f cur < f y then y else cur) x

/-- `min(stats, key=...)`: the first element attaining the minimum. -/
def pyMinBy (f : Row → Nat) (x : Row) (xs : List Row) : Row :=
  xs.foldl (fun cur y => if f y < f cur then y else cur) x

/-- The `largest` row of lines 270-272, when any thread was exported. -/
def largestRow : List Row → Option Row
  | [] => none
  | x :: xs => some (pyMaxBy Row.sizeBytes x xs)

/-- The `smallest` row of lines 271-273, when any thread was exported. -/
def smallestRow : List Row → Option Row
  | [] => none
  | x :: xs => some (pyMinBy Row.sizeBytes x xs)

/-- Lines 257-276: the aggregate section appended to the index after the
loop.  The average line appears when `total_threads > 0`; the
largest/smallest lines appear when `stats` is non-empty. -/
def indexFooter (env : Env) (rows : List Row) (totalThreads totalMessages : Nat)
    (folder : String) : String :=
  "\n## Gesamtstatistik\n" ++
  "- **Exportierte Threads:** " ++ natStr totalThreads ++ "\n" ++
  "- **Gesamtnachrichten:** " ++ natStr totalMessages ++ "\n" ++
  (if 0 < totalThreads then
     "- **Durchschnitt pro Thread:** " ++ env.fmtAvg totalMessages totalThreads ++
     " Nachrichten\n"
   else "") ++
  "- **Gesamtgröße:** " ++ env.fmtMB ((rows.map Row.sizeBytes).sum) ++ " MB\n" ++
  (match largestRow rows, smallestRow rows with
   | some lg, some sm =>
     "- **Größte Datei:** " ++ lg.filename ++ " (" ++ env.fmtKB lg.sizeBytes ++ " KB)\n" ++
     "- **Kleinste Datei:** " ++ sm.filename ++ " (" ++ env.fmtKB sm.sizeBytes ++ " KB)\n"
   | _, _ => "") ++
  "\n**Ordner:** `" ++ folder ++ "`\n" ++
  "**Index:** [00_INDEX.md](./00_INDEX.md)\n"

/-- The outcome of reading and JSON-parsing the input file with
`encoding='utf-8'` (lines 94-99). -/
inductive ReadOutcome where
  | ok (v : JValue)
  | jsonErr
  | unicodeErr

/-- Lines 94-107: parse with utf-8; on a `UnicodeDecodeError` retry with
utf-8-sig (outcome `r2`); `none` means `export_threads` returns `None`
before any filesystem output. -/
def loadJson (r1 : ReadOutcome) (r2 : Except Unit JValue) : Option JValue :=
  match r1 with
  | .ok v => some v
  | .jsonErr => none
  | .unicodeErr => match r2 with | .ok v => some v | .error _ => none

/-- Everything a completed run wrote: the folder, the thread files
(filename and content), the `stats` rows, both counters, and the full
content of `00_INDEX.md`. -/
structure ExportOutput where
  folder : String
  files : List (String × String)
  rows : List Row
  totalThreads : Nat
  totalMessages : Nat
  indexContent : String

/-- The observable result of `export_threads`: `noInput` is the `None`
return before the output folder is created (nothing written);
`crashed` is an uncaught exception escaping after folder creation
(partial output not modelled further); `done` is a completed run. -/
inductive ExportResult where
  | noInput
  | crashed (folder : String)
  | done (out : ExportOutput)

/-- `export_threads` (source lines 90-301), with the file reads and OS
effects supplied as oracles. -/
def export_threads (env : Env) (r1 : ReadOutcome) (r2 : Except Unit JValue)
    (maxT maxM : Option Nat) : ExportResult :=
  match loadJson r1 r2 with
  | none => .noInput
  | some data =>
    let dataList := match data with | .arr xs => xs | v => [v]
    let tc := match data with | .arr xs => xs.length | _ => 1
    match exportLoop env maxT maxM 1 dataList ⟨[], [], 0, 0, ""⟩ with
    | .error _ => .crashed env.folder
    | .ok st =>
      .done ⟨env.folder, st.files, st.rows, st.totalThreads, st.totalMessages,
             indexHeader env tc ++ st.indexRows ++
             indexFooter env st.rows st.totalThreads st.totalMessages env.folder⟩

/-- Right-fold concatenation of a list of strings (the sequence of
`out.write` calls for the message loop). -/
def concatStrings (l : List String) : String :=
  l.foldr (fun a b => a ++ b) ""

/-! ### Decimal digits: correctness -/

theorem digitChar10_isDigit (n : Nat) : (digitChar10 n).isDigit = true := by
  unfold digitChar10
  split <;> decide

theorem digitChar10_toNat : ∀ n : Nat, n < 10 → (digitChar10 n).toNat = 48 + n := by
  decide

theorem digitsVal_foldl (l : List Char) (a : Nat) :
    l.foldl (fun acc c => 10 * acc + (c.toNat - 48)) a
      = a * 10 ^ l.length + digitsVal l := by
  induction l generalizing a with
  | nil => simp [digitsVal]
  | cons c t ih =>
    have hc : digitsVal (c :: t) = (c.toNat - 48) * 10 ^ t.length + digitsVal t := by
      show List.foldl _ (10 * 0 + (c.toNat - 48)) t = _
      rw [ih]
      ring_nf
    show List.foldl _ (10 * a + (c.toNat - 48)) t = _
    rw [ih, hc, List.length_cons, pow_succ]
    ring

theorem digitsVal_cons (c : Char) (t : List Char) :
    digitsVal (c :: t) = (c.toNat - 48) * 10 ^ t.length + digitsVal t := by
  show List.foldl _ (10 * 0 + (c.toNat - 48)) t = _
  rw [digitsVal_foldl]
  ring_nf

theorem natDigitsAux_val : ∀ fuel n acc, n < 10 ^ (fuel + 1) →
    digitsVal (natDigitsAux fuel n acc) = n * 10 ^ acc.length + digitsVal acc := by
  intro fuel
  induction fuel with
  | zero =>
    intro n acc h
    have h10 : n < 10 := by simpa using h
    have hd : (digitChar10 (n % 10)).toNat - 48 = n := by
      rw [digitChar10_toNat _ (Nat.mod_lt n (by omega))]
      omega
    simp only [natDigitsAux, digitsVal_cons, hd]
  | succ f ih =>
    intro n acc h
    by_cases hn : n < 10
    · have hd : (digitChar10 (n % 10)).toNat - 48 = n := by
        rw [digitChar10_toNat _ (Nat.mod_lt n (by omega))]
        omega
      simp only [natDigitsAux, if_pos hn, digitsVal_cons, hd]
    · have hdiv : n / 10 < 10 ^ (f + 1) := by
        rw [Nat.div_lt_iff_lt_mul (by omega)]
        calc n < 10 ^ (f + 1 + 1) := h
        _ = 10 ^ (f + 1) * 10 := by rw [pow_succ]
      have hd : (digitChar10 (n % 10)).toNat - 48 = n % 10 := by
        rw [digitChar10_toNat _ (Nat.mod_lt n (by omega))]
        omega
      simp only [natDigitsAux, if_neg hn]
      rw [ih (n / 10) _ hdiv, digitsVal_cons, hd, List.length_cons]
      have h1 : n / 10 * 10 + n % 10 = n := by omega
      have hkey : n / 10 * 10 ^ (acc.length + 1) + n % 10 * 10 ^ acc.length
          = n * 10 ^ acc.length := by
        calc n / 10 * 10 ^ (acc.length + 1) + n % 10 * 10 ^ acc.length
            = (n / 10 * 10 + n % 10) * 10 ^ acc.length := by ring
        _ = n * 10 ^ acc.length := by rw [h1]
      omega

theorem digitsVal_natDigits (n : Nat) : digitsVal (natDigits n) = n := by
  have hlt : n < 10 ^ (n + 1) := by
    calc n < 10 ^ n := Nat.lt_pow_self (by omega) n
    _ ≤ 10 ^ (n + 1) := Nat.pow_le_pow_right (by omega) (by omega)
  have := natDigitsAux_val n n [] hlt
  simpa [digitsVal] using this

theorem digitsVal_replicate_zero (k : Nat) (ds : List Char) :
    digitsVal (List.replicate k '0' ++ ds) = digitsVal ds := by
  induction k with
  | zero => simp
  | succ m ih =>
    rw [List.replicate_succ, List.cons_append, digitsVal_cons]
    simpa using ih

theorem digitsVal_pad3 (n : Nat) : digitsVal (pad3 n) = n := by
  rw [pad3, digitsVal_replicate_zero, digitsVal_natDigits]

theorem pad3_inj {m n : Nat} (h : pad3 m = pad3 n) : m = n := by
  have := congrArg digitsVal h
  rwa [digitsVal_pad3, digitsVal_pad3] at this

theorem natDigitsAux_digits : ∀ fuel n acc, (∀ c ∈ acc, c.isDigit = true) →
    ∀ c ∈ natDigitsAux fuel n acc, c.isDigit = true := by
  intro fuel
  induction fuel with
  | zero =>
    intro n acc hacc c hc
    simp only [natDigitsAux] at hc
    rcases List.mem_cons.1 hc with h | h
    · exact h ▸ digitChar10_isDigit _
    · exact hacc c h
  | succ f ih =>
    intro n acc hacc c hc
    simp only [natDigitsAux] at hc
    split at hc
    · rcases List.mem_cons.1 hc with h | h
      · exact h ▸ digitChar10_isDigit _
      · exact hacc c h
    · refine ih (n / 10) _ ?_ c hc
      intro d hd
      rcases List.mem_cons.1 hd with h | h
      · exact h ▸ digitChar10_isDigit _
      · exact hacc d h

theorem pad3_digits (n : Nat) : ∀ c ∈ pad3 n, c.isDigit = true := by
  intro c hc
  rcases List.mem_append.1 hc with h | h
  · rw [List.eq_of_mem_replicate h]; decide
  · exact natDigitsAux_digits n n [] (by simp) c h

theorem pad3_length (n : Nat) : 3 ≤ (pad3 n).length := by
  rw [pad3, List.length_append, List.length_replicate]
  omega

/-! ### Thread filenames -/

theorem takeWhile_append_not (p : Char → Bool) (A : List Char) (x : Char) (B : List Char)
    (hA : ∀ c ∈ A, p c = true) (hx : p x = false) :
    (A ++ x :: B).takeWhile p = A := by
  induction A with
  | nil => simp [List.takeWhile_cons, hx]
  | cons a t ih =>
    have ha : p a = true := hA a (by simp)
    simp only [List.cons_append, List.takeWhile_cons, ha, if_true]
    rw [ih (fun c hc => hA c (by simp [hc]))]

theorem threadFilename_data (idx : Nat) (t : String) :
    (threadFilename idx t).data = pad3 idx ++ '_' :: (t.data ++ ['.', 'm', 'd']) := by
  simp [threadFilename, String.data_append]

theorem threadFilename_takeWhile (idx : Nat) (t : String) :
    (threadFilename idx t).data.takeWhile Char.isDigit = pad3 idx := by
  rw [threadFilename_data]
  exact takeWhile_append_not _ _ _ _ (pad3_digits idx) (by decide)

theorem threadFilename_inj {i j : Nat} {t u : String} (hne : i ≠ j) :
    threadFilename i t ≠ threadFilename j u := by
  intro h
  apply hne
  apply pad3_inj
  rw [← threadFilename_takeWhile i t, ← threadFilename_takeWhile j u, h]

theorem threadFilename_ne_index (idx : Nat) (t : String) :
    threadFilename idx t ≠ "00_INDEX.md" := by
  intro h
  have h2 : (threadFilename idx t).data.takeWhile Char.isDigit
      = ("00_INDEX.md" : String).data.takeWhile Char.isDigit := by rw [h]
  rw [threadFilename_takeWhile] at h2
  have h3 : 3 ≤ (("00_INDEX.md" : String).data.takeWhile Char.isDigit).length := by
    rw [← h2]; exact pad3_length idx
  revert h3
  decide

/-! ### `sanitize_filename`: character-level properties -/

/-- A character `sanitize_filename` is allowed to emit: not one of the
replaced filesystem-unsafe characters, not an ASCII control character,
and not a space. -/
def goodChar (c : Char) : Bool :=
  !invalidChar c && !controlChar c && !(c == ' ')

/-- No two adjacent characters of the list are both underscores. -/
def noAdjacentUnderscores : List Char → Bool
  | a :: b :: rest => !(a == '_' && b == '_') && noAdjacentUnderscores (b :: rest)
  | _ => true

/-- The binary relation behind `noAdjacentUnderscores`. -/
def underscoreOk (a b : Char) : Prop :=
  ¬(a = '_' ∧ b = '_')

theorem good_of_mem_cleaned (l : List Char) :
    ∀ c ∈ removeControl (replaceInvalid (spacesToUnderscores l)), goodChar c = true := by
  intro c hc
  rw [removeControl, List.mem_filter] at hc
  obtain ⟨hmem, hctrl⟩ := hc
  rw [replaceInvalid, List.mem_map] at hmem
  obtain ⟨d, hd, hdc⟩ := hmem
  by_cases hinv : invalidChar d = true
  · rw [if_pos hinv] at hdc
    subst hdc
    decide
  · rw [if_neg hinv] at hdc
    subst hdc
    rw [spacesToUnderscores, List.mem_map] at hd
    obtain ⟨e, _, hed⟩ := hd
    by_cases hsp : (e == ' ') = true
    · rw [if_pos hsp] at hed
      subst hed
      decide
    · rw [if_neg hsp] at hed
      subst hed
      have h1 : invalidChar e = false := by simpa using hinv
      have h2 : controlChar e = false := by simpa using hctrl
      have h3 : (e == ' ') = false := by simpa using hsp
      simp [goodChar, h1, h2, h3]

theorem mem_stripChars {c : Char} {p : Char → Bool} {l : List Char}
    (h : c ∈ stripChars p l) : c ∈ l := by
  rw [stripChars, List.mem_reverse] at h
  have h2 : c ∈ (l.dropWhile p).reverse := (List.dropWhile_sublist _).mem h
  rw [List.mem_reverse] at h2
  exact (List.dropWhile_sublist _).mem h2

theorem mem_collapseUnderscores {c : Char} :
    ∀ {l : List Char}, c ∈ collapseUnderscores l → c ∈ l := by
  intro l
  induction l with
  | nil => simp [collapseUnderscores]
  | cons a tail ih =>
    cases tail with
    | nil => simp [collapseUnderscores]
    | cons b rest =>
      intro h
      rw [collapseUnderscores] at h
      split at h
      · exact List.mem_cons_of_mem a (ih h)
      · rcases List.mem_cons.1 h with h1 | h1
        · exact h1 ▸ List.mem_cons_self a _
        · exact List.mem_cons_of_mem a (ih h1)

theorem mem_pyTake {c : Char} {l : List Char} {j : Int} (h : c ∈ pyTake l j) : c ∈ l := by
  rw [pyTake] at h
  split at h
  · exact List.take_subset _ _ h
  · exact List.take_subset _ _ h

theorem mem_splitext_fst {c : Char} {l : List Char} (h : c ∈ (splitext l).1) : c ∈ l := by
  rw [splitext] at h
  split at h
  · exact h
  · split at h
    · exact h
    · exact List.take_subset _ _ h

theorem mem_splitext_snd {c : Char} {l : List Char} (h : c ∈ (splitext l).2) : c ∈ l := by
  rw [splitext] at h
  split at h
  · simp at h
  · split at h
    · simp at h
    · exact List.drop_subset _ _ h

theorem mem_truncateName {c : Char} {l : List Char} (h : c ∈ truncateName l) : c ∈ l := by
  rw [truncateName] at h
  split at h
  · rcases List.mem_append.1 h with h1 | h1
    · exact mem_splitext_fst (mem_pyTake h1)
    · exact mem_splitext_snd h1
  · exact h

theorem good_of_mem_sanitizeCore (l : List Char) :
    ∀ c ∈ sanitizeCore l true, goodChar c = true := by
  intro c hc
  exact good_of_mem_cleaned l c
    (mem_stripChars (mem_collapseUnderscores (mem_truncateName hc)))

theorem collapseUnderscores_head? :
    ∀ (xs : List Char) (x : Char), (collapseUnderscores (x :: xs)).head? = some x := by
  intro xs
  induction xs with
  | nil => intro x; rfl
  | cons b rest ih =>
    intro x
    rw [collapseUnderscores]
    split
    · next hb =>
      simp only [Bool.and_eq_true, beq_iff_eq] at hb
      rw [ih b, hb.1, hb.2]
    · rfl

theorem collapseUnderscores_chain' :
    ∀ l : List Char, List.Chain' underscoreOk (collapseUnderscores l) := by
  intro l
  induction l with
  | nil => simp [collapseUnderscores]
  | cons a tail ih =>
    cases tail with
    | nil => simp [collapseUnderscores]
    | cons b rest =>
      rw [collapseUnderscores]
      split
      · exact ih
      · next hab =>
        rw [List.chain'_cons']
        refine ⟨?_, ih⟩
        intro y hy
        rw [collapseUnderscores_head? rest b] at hy
        cases hy
        intro hcon
        apply hab
        rw [hcon.1, hcon.2]
        decide

theorem lastDotIdxAux_spec :
    ∀ (l : List Char) (i : Nat) (acc : Option Nat) (j : Nat),
      lastDotIdxAux l i acc = some j →
      acc = some j ∨ (i ≤ j ∧ j - i < l.length ∧ l[j - i]? = some '.') := by
  intro l
  induction l with
  | nil => intro i acc j h; exact Or.inl h
  | cons c cs ih =>
    intro i acc j h
    rw [lastDotIdxAux] at h
    rcases ih (i + 1) _ j h with h1 | h1
    · split at h1
      · next hc =>
        cases h1
        right
        refine ⟨Nat.le_refl _, by simp, ?_⟩
        simp [Nat.sub_self, beq_iff_eq.1 hc]
      · exact Or.inl h1
    · right
      obtain ⟨hij, hlen, hget⟩ := h1
      refine ⟨by omega, by simp; omega, ?_⟩
      have : j - i = (j - (i + 1)) + 1 := by omega
      rw [this, List.getElem?_cons_succ]
      exact hget

theorem lastDotIdx_spec {l : List Char} {d : Nat} (h : lastDotIdx l = some d) :
    d < l.length ∧ l[d]? = some '.' := by
  rcases lastDotIdxAux_spec l 0 none d h with h1 | h1
  · cases h1
  · obtain ⟨_, hlen, hget⟩ := h1
    rw [Nat.sub_zero] at hlen hget
    exact ⟨hlen, hget⟩

theorem pyTake_front (l : List Char) (j : Int) : pyTake l j <+: l := by
  rw [pyTake]
  split
  · exact List.take_prefix _ _
  · exact List.take_prefix _ _

theorem splitext_cases (l : List Char) :
    splitext l = (l, []) ∨
    ∃ d, lastDotIdx l = some d ∧ splitext l = (l.take d, l.drop d) := by
  cases hd : lastDotIdx l with
  | none => left; simp [splitext, hd]
  | some d =>
    by_cases hall : ((l.take d).all fun c => c == '.') = true
    · left
      simp [splitext, hd, hall]
    · right
      refine ⟨d, rfl, ?_⟩
      simp [splitext, hd, hall]

theorem chain'_truncateName {l : List Char} (h : List.Chain' underscoreOk l) :
    List.Chain' underscoreOk (truncateName l) := by
  rw [truncateName]
  split
  · rcases splitext_cases l with hs | ⟨d, hd, hs⟩
    · rw [hs]
      simpa using List.Chain'.prefix h (pyTake_front l _)
    · rw [hs]
      rw [List.chain'_append]
      refine ⟨ List.Chain'.prefix h ((pyTake_front _ _).trans (List.take_prefix _ _)),
        List.Chain'.drop h d, ?_⟩
      intro x _ y hy
      have hy2 : y = '.' := by
        rw [List.head?_drop, (lastDotIdx_spec hd).2, Option.mem_def] at hy
        exact (Option.some.inj hy).symm
      subst hy2
      intro hcon
      exact absurd hcon.2 (by decide)
  · exact h

theorem chain'_to_noAdjacent :
    ∀ {l : List Char}, List.Chain' underscoreOk l → noAdjacentUnderscores l = true := by
  intro l
  induction l with
  | nil => intro _; rfl
  | cons a tail ih =>
    cases tail with
    | nil => intro _; rfl
    | cons b rest =>
      intro h
      obtain ⟨hab, h2⟩ := List.chain'_cons.1 h
      rw [noAdjacentUnderscores, Bool.and_eq_true]
      refine ⟨?_, ih h2⟩
      by_cases ha : a = '_'
      · by_cases hb : b = '_'
        · exact absurd ⟨ha, hb⟩ hab
        · simp [ha, hb]
      · simp [ha]

/-- **C4** (confirmed).  For every input title, the result of
`sanitize_filename` with `replace_spaces=True` contains none of the
characters `< > : " / \ | ? *`, no ASCII control character
(0x00-0x1f, 0x7f), no space, and no two consecutive underscores. -/
theorem C4_safe_characters (s : String) :
    (sanitize_filename s true).data.all goodChar = true ∧
    noAdjacentUnderscores (sanitize_filename s true).data = true := by
  rw [sanitize_filename]
  split
  · constructor <;> decide
  · constructor
    · rw [List.all_eq_true]
      intro c hc
      exact good_of_mem_sanitizeCore s.data c hc
    · exact chain'_to_noAdjacent
        (chain'_truncateName (collapseUnderscores_chain' _))

set_option maxRecDepth 40000 in
set_option maxHeartbeats 1000000 in
/-- **C3** counterexample.  The title `"a." ++ 250 × 'b'` sanitizes to a
252-character name whose `splitext` extension has 251 characters; the
truncation slice `name[:200 - len(ext)]` then has a negative bound, and
the result keeps all 251 characters — more than the claimed 200. -/
theorem C3_counterexample :
    200 < (sanitize_filename (String.mk ('a' :: '.' :: List.replicate 250 'b')) true).length := by
  decide

/-- **C3** as amended.  `sanitize_filename` always returns a non-empty
string and falls back to `'unnamed_thread'` whenever the sanitized
result would be empty or a lone underscore; the length is at most 200
characters provided the `splitext` extension of the sanitized name is at
most 200 characters long (the counterexample shows the bound can fail
otherwise). -/
theorem C3_amended_bounds (s : String) (rs : Bool) :
    sanitize_filename s rs ≠ "" ∧
    ((splitext (sanitizePre s.data rs)).2.length ≤ 200 →
      (sanitize_filename s rs).length ≤ 200) ∧
    (sanitizeCore s.data rs = [] ∨ sanitizeCore s.data rs = ['_'] →
      sanitize_filename s rs = "unnamed_thread") := by
  rw [sanitize_filename]
  split
  · exact ⟨by decide, fun _ => by decide, fun _ => rfl⟩
  · next h =>
    refine ⟨?_, ?_, fun hc => absurd hc h⟩
    · intro heq
      apply h
      left
      have := congrArg String.data heq
      simpa using this
    · intro hext
      rw [String.length_mk, sanitizeCore, truncateName]
      split
      · rw [List.length_append]
        have hj : (0 : Int) ≤ 200 - ((splitext (sanitizePre s.data rs)).2.length : Int) := by
          omega
        rw [pyTake, if_pos hj]
        have ht : ((200 : Int) - ((splitext (sanitizePre s.data rs)).2.length : Int)).toNat
            = 200 - (splitext (sanitizePre s.data rs)).2.length := by omega
        rw [ht, List.length_take]
        omega
      · next hshort => omega

/-- Witness for `C3_amended_bounds` at a concrete title. -/
theorem C3_amended_bounds_witness :
    sanitize_filename "My: Chat?" true ≠ "" ∧
    (sanitize_filename "My: Chat?" true).length ≤ 200 :=
  ⟨(C3_amended_bounds "My: Chat?" true).1,
   (C3_amended_bounds "My: Chat?" true).2.1 (by decide)⟩

/-! ### Sorting: order, permutation, stability -/

theorem keyLE_false_strict {a b : Option Nat} (h : keyLE a b = false) :
    keyLE b a = true ∧ a ≠ b := by
  rcases a with _ | x <;> rcases b with _ | y <;>
    simp [keyLE] at h ⊢ <;> omega

theorem filter_orderedInsert_key (k : Option Nat) (x : Turn) (l : List Turn) :
    (List.orderedInsert turnLE x l).filter (fun m => turnKey m == k)
      = if (turnKey x == k) = true then
          x :: l.filter (fun m => turnKey m == k)
        else l.filter (fun m => turnKey m == k) := by
  induction l with
  | nil =>
    by_cases hpx : (turnKey x == k) = true <;>
      simp [List.orderedInsert, List.filter_cons, hpx]
  | cons y t ih =>
    rw [List.orderedInsert]
    split
    · by_cases hpx : (turnKey x == k) = true <;>
        simp [List.filter_cons, hpx]
    · next hnle =>
      have hf : keyLE (turnKey x) (turnKey y) = false := by
        rcases hb : keyLE (turnKey x) (turnKey y) with _ | _
        · rfl
        · exact absurd hb hnle
      have hne : turnKey x ≠ turnKey y := (keyLE_false_strict hf).2
      by_cases hpy : (turnKey y == k) = true
      · have hpx : (turnKey x == k) = false := by
          rw [beq_iff_eq] at hpy
          rw [beq_eq_false_iff_ne]
          rw [hpy] at hne
          exact hne
        simp [List.filter_cons, hpy, hpx, ih]
      · by_cases hpx : (turnKey x == k) = true <;>
          simp [List.filter_cons, hpy, hpx, ih]

theorem filter_sortTurns (k : Option Nat) (l : List Turn) :
    (sortTurns l).filter (fun m => turnKey m == k)
      = l.filter (fun m => turnKey m == k) := by
  rw [sortTurns]
  induction l with
  | nil => rfl
  | cons x t ih =>
    rw [List.insertionSort, filter_orderedInsert_key]
    by_cases hpx : (turnKey x == k) = true <;>
      simp [List.filter_cons, hpx, ih]

/-- **C2** (confirmed).  The sorted turn list is nondecreasing in the
extracted numeric id (`turnKey`, the integer value of the first maximal
digit run of the message key, with digit-free keys — `float('inf')` —
ordered after all others), it is a permutation of the extracted turns,
and turns with equal extracted ids keep their original mapping order
(for every key value, filtering by that key is unchanged by sorting).
The file writes the turns in exactly this list order. -/
theorem C2_sort_order (l : List Turn) :
    List.Sorted turnLE (sortTurns l) ∧
    (sortTurns l).Perm l ∧
    ∀ k : Option Nat,
      (sortTurns l).filter (fun m => turnKey m == k)
        = l.filter (fun m => turnKey m == k) :=
  ⟨List.sorted_insertionSort turnLE l, List.perm_insertionSort turnLE l,
   fun k => filter_sortTurns k l⟩

/-! ### The message loop without a limit -/

theorem writeMsgsGo_none (total : Nat) :
    ∀ (msgs : List Turn) (i : Nat),
      writeMsgsGo none total i msgs = (concatStrings (msgs.map renderTurn), msgs.length) := by
  intro msgs
  induction msgs with
  | nil => intro i; rfl
  | cons m rest ih =>
    intro i
    rw [writeMsgsGo]
    simp only [Bool.false_and, Bool.false_eq_true, if_false, ih (i + 1)]
    simp [concatStrings]

theorem writeMessages_none (msgs : List Turn) :
    writeMessages none msgs = (concatStrings (msgs.map renderTurn), msgs.length) :=
  writeMsgsGo_none msgs.length msgs 0

/-- **C1** counterexample.  A fragment of type `"FOO"` with non-empty
content is extracted as a turn and written under the heading
`### FOO` — neither the user heading `### 👤 Sie` nor the assistant
heading `### 🤖 DeepSeek` — so turns are not restricted to the two
claimed headings. -/
theorem C1_counterexample :
    extractTurns [("m1", JValue.obj [("message", JValue.obj [("fragments",
        JValue.arr [JValue.obj [("type", JValue.str "FOO"),
          ("content", JValue.str "hallo")]])])])]
      = .ok [⟨"m1", JValue.str "FOO", "hallo"⟩] ∧
    writeMessages none [⟨"m1", JValue.str "FOO", "hallo"⟩]
      = ("### FOO\n\nhallo\n\n", 1) ∧
    renderTurn ⟨"m1", JValue.str "FOO", "hallo"⟩ ≠ "### 👤 Sie\n\nhallo\n\n" ∧
    renderTurn ⟨"m1", JValue.str "FOO", "hallo"⟩ ≠ "### 🤖 DeepSeek\n\nhallo\n\n" :=
  ⟨rfl, rfl, by decide, by decide⟩

/-- **C1** as amended.  Every turn of type `"REQUEST"` is written under
the user heading `### 👤 Sie`, every turn of type `"RESPONSE"` under the
assistant heading `### 🤖 DeepSeek`, and a turn of any other type under
a heading consisting of `### ` followed by that type; with no message
limit, the file body is exactly the concatenation of the rendered turns
in list order. -/
theorem C1_amended_headings :
    (∀ msgs : List Turn,
      writeMessages none msgs = (concatStrings (msgs.map renderTurn), msgs.length)) ∧
    ∀ m : Turn, renderTurn m =
      (if isStrEq m.type "REQUEST" then "### 👤 Sie\n\n"
       else if isStrEq m.type "RESPONSE" then "### 🤖 DeepSeek\n\n"
       else "### " ++ pyStrV m.type ++ "\n\n") ++ m.content ++ "\n\n" :=
  ⟨writeMessages_none, fun _ => rfl⟩

/-! ### Limits passed as `0` -/

theorem writeMsgsGo_some_zero (total : Nat) :
    ∀ (msgs : List Turn) (i : Nat),
      writeMsgsGo (some 0) total i msgs = writeMsgsGo none total i msgs := by
  intro msgs
  induction msgs with
  | nil => intro i; rfl
  | cons m rest ih =>
    intro i
    rw [writeMsgsGo, writeMsgsGo]
    simp only [bne_self_eq_false, Bool.false_and, Bool.false_eq_true, if_false, ih (i + 1)]

theorem exportLoop_some_zero (env : Env) (mM : Option Nat) :
    ∀ (l : List JValue) (idx : Nat) (st : ExportState),
      exportLoop env (some 0) mM idx l st = exportLoop env none mM idx l st := by
  intro l
  induction l with
  | nil => intro idx st; rfl
  | cons t rest ih =>
    intro idx st
    rw [exportLoop.eq_def, exportLoop.eq_def]
    dsimp only
    simp only [optTruthy, bne_self_eq_false, Bool.false_and, Bool.false_eq_true, if_false]
    cases t with
    | obj fs =>
      cases hT : getTitle fs idx with
      | error e => simp [hT]
      | ok title =>
        cases hM : getMapping fs with
        | error e => simp [hT, hM]
        | ok mapping =>
          cases hC : threadFileContent env.fmtDate mM title
              ((jLookup fs "id").getD (.str ""))
              ((jLookup fs "inserted_at").getD (.str ""))
              (threadFilename idx (sanitize_filename title true)) mapping with
          | error e => simp [hT, hM, hC]
          | ok cn => simp only [hT, hM, hC]; exact ih _ _
    | null => exact ih _ _
    | bool b => exact ih _ _
    | num n => exact ih _ _
    | str s => exact ih _ _
    | arr xs => exact ih _ _

/-- **C8** (confirmed).  Passing `0` for either limit disables the limit
instead of exporting nothing: the loop with `max_threads=0` behaves
exactly like the loop with `max_threads=None` (no break ever fires,
every thread entry is processed), and the message loop with
`max_messages_per_file=0` behaves exactly like the unlimited one, which
writes every turn of the thread. -/
theorem C8_zero_limits :
    (∀ (env : Env) (mM : Option Nat) (l : List JValue) (idx : Nat) (st : ExportState),
      exportLoop env (some 0) mM idx l st = exportLoop env none mM idx l st) ∧
    (∀ msgs : List Turn, writeMessages (some 0) msgs = writeMessages none msgs) ∧
    (∀ msgs : List Turn,
      writeMessages none msgs = (concatStrings (msgs.map renderTurn), msgs.length)) :=
  ⟨fun env mM l idx st => exportLoop_some_zero env mM l idx st,
   fun msgs => writeMsgsGo_some_zero msgs.length msgs 0,
   writeMessages_none⟩

/-- **C9** (confirmed).  When the input cannot be parsed —
`json.JSONDecodeError` on the utf-8 attempt, or any failure of the
utf-8-sig retry after a `UnicodeDecodeError` — `export_threads` returns
`None` before the output folder is created, so nothing is written: the
result is `noInput`, which carries no folder, no index and no thread
files. -/
theorem C9_parse_failure :
    (∀ (env : Env) (r2 : Except Unit JValue) (maxT maxM : Option Nat),
      export_threads env .jsonErr r2 maxT maxM = .noInput) ∧
    (∀ (env : Env) (maxT maxM : Option Nat),
      export_threads env .unicodeErr (.error ()) maxT maxM = .noInput) ∧
    ∀ (env : Env) (r2 : Except Unit JValue) (maxT maxM : Option Nat)
      (out : ExportOutput) (f : String),
      export_threads env .jsonErr r2 maxT maxM ≠ .done out ∧
      export_threads env .jsonErr r2 maxT maxM ≠ .crashed f :=
  ⟨fun _ _ _ _ => rfl, fun _ _ _ => rfl,
   fun _ _ _ _ _ _ =>
     ⟨fun h => ExportResult.noConfusion h, fun h => ExportResult.noConfusion h⟩⟩

/-! ### Skipping malformed elements -/

/-- The condition under which lines 186-188 skip a mapping entry: the
`message` field is missing, not a dict, or a falsy (empty) dict. -/
def messageSkipped (fs : List (String × JValue)) : Bool :=
  match jLookup fs "message" with
  | some (.obj ms) => ms.isEmpty
  | some _ => true
  | none => true

/-- **C6** (confirmed).  Malformed elements are skipped without aborting:
a non-dict thread entry leaves the state (files, rows, counters, index)
unchanged and processing continues with the next entry and the next
index; a mapping entry keyed `root`, one with a non-dict value, and one
whose `message` field is missing, falsy or not a dict contribute no
turn, extraction continuing with the remaining entries. -/
theorem C6_skip_and_continue :
    (∀ (env : Env) (maxT maxM : Option Nat) (idx : Nat) (t : JValue)
        (rest : List JValue) (st : ExportState),
      (optTruthy maxT && decide (maxT.getD 0 < idx)) = false →
      t.isObj = false →
      exportLoop env maxT maxM idx (t :: rest) st
        = exportLoop env maxT maxM (idx + 1) rest st) ∧
    (∀ (v : JValue) (rest : List (String × JValue)),
      extractTurns (("root", v) :: rest) = extractTurns rest) ∧
    (∀ (k : String) (v : JValue) (rest : List (String × JValue)),
      v.isObj = false →
      extractTurns ((k, v) :: rest) = extractTurns rest) ∧
    ∀ (k : String) (fs : List (String × JValue)) (rest : List (String × JValue)),
      messageSkipped fs = true →
      extractTurns ((k, .obj fs) :: rest) = extractTurns rest := by
  refine ⟨?_, ?_, ?_, ?_⟩
  · intro env maxT maxM idx t rest st hbreak hobj
    rw [exportLoop.eq_def]
    dsimp only
    rw [hbreak]
    simp only [Bool.false_eq_true, if_false]
    cases t with
    | obj fs => simp [JValue.isObj] at hobj
    | null => rfl
    | bool b => rfl
    | num n => rfl
    | str s => rfl
    | arr xs => rfl
  · intro v rest
    cases v <;> rfl
  · intro k v rest hobj
    cases v with
    | obj fs => simp [JValue.isObj] at hobj
    | null => rfl
    | bool b => rfl
    | num n => rfl
    | str s => rfl
    | arr xs => rfl
  · intro k fs rest h
    rw [messageSkipped] at h
    rw [extractTurns]
    by_cases hk : (k == "root") = true
    · rw [if_pos hk]
    · rw [if_neg hk]
      cases hlook : jLookup fs "message" with
      | none => rfl
      | some v =>
        rw [hlook] at h
        cases v with
        | obj ms =>
          have h2 : ms.isEmpty = true := by simpa using h
          simp [h2]
        | null => rfl
        | bool b => rfl
        | num n => rfl
        | str s => rfl
        | arr xs => rfl

/-- A concrete environment for witnesses. -/
def envW : Env :=
  ⟨fun _ => 0, fun _ => none, "01.01.2026 12:00:00", "deepseek_x_20260101_120000",
   "x.json", fun _ => "0.0", fun _ => "0.00", fun _ _ => "0.0"⟩

/-- Witness for `C6_skip_and_continue` on concrete malformed inputs. -/
theorem C6_skip_and_continue_witness :
    (exportLoop envW none none 1 [JValue.num 3] ⟨[], [], 0, 0, ""⟩
      = exportLoop envW none none 2 [] ⟨[], [], 0, 0, ""⟩) ∧
    extractTurns [("root", JValue.obj [("message", JValue.obj [("f", JValue.null)])])]
      = extractTurns [] ∧
    extractTurns [("m7", JValue.num 1)] = extractTurns [] ∧
    extractTurns [("m8", JValue.obj [("message", JValue.null)])] = extractTurns [] :=
  ⟨C6_skip_and_continue.1 envW none none 1 (JValue.num 3) [] ⟨[], [], 0, 0, ""⟩ rfl rfl,
   C6_skip_and_continue.2.1 _ [],
   C6_skip_and_continue.2.2.1 "m7" (JValue.num 1) [] rfl,
   C6_skip_and_continue.2.2.2 "m8" [("message", JValue.null)] [] rfl⟩

/-- **C7** (confirmed).  Every generated thread file starts with a
level-1 heading containing the title, followed by the metadata block
(thread id, then the creation date exactly when `inserted_at` is truthy,
then the output filename), followed by the `Chat-Verlauf` section with
the rendered turns and a trailing statistics line carrying the number of
messages written. -/
theorem C7_markdown_structure
    (fmtDate : String → Option String) (maxM : Option Nat) (title : String)
    (threadId inserted : JValue) (filename : String)
    (mapping : List (String × JValue)) (content : String) (n : Nat)
    (h : threadFileContent fmtDate maxM title threadId inserted filename mapping
      = .ok (content, n)) :
    (∃ turns, extractTurns mapping = .ok turns ∧
      content =
        "# " ++ title ++ "\n\n" ++
        "**Metadaten:**\n" ++
        "- Thread-ID: `" ++ pyStrV threadId ++ "`\n" ++
        erstelltLine fmtDate inserted ++
        "- Datei: `" ++ filename ++ "`\n" ++
        "\n---\n\n" ++
        "## Chat-Verlauf\n\n" ++
        (writeMessages maxM (sortTurns turns)).1 ++
        "---\n\n" ++
        "**Statistik:** " ++ natStr n ++ " Nachrichten\n" ∧
      n = (writeMessages maxM (sortTurns turns)).2) ∧
    (pyTruthy inserted = false → erstelltLine fmtDate inserted = "") ∧
    (pyTruthy inserted = true →
      ∃ d, erstelltLine fmtDate inserted = "- Erstellt: " ++ d ++ "\n") := by
  refine ⟨?_, ?_, ?_⟩
  · rw [threadFileContent] at h
    cases hE : extractTurns mapping with
    | error e => rw [hE] at h; cases h
    | ok turns =>
      rw [hE] at h
      have hc := congrArg (fun p => (Prod.fst : String × Nat → String)
        (match p with | Except.ok q => q | Except.error _ => ("", 0))) h
      simp only [] at hc
      have hn := congrArg (fun p => (Prod.snd : String × Nat → Nat)
        (match p with | Except.ok q => q | Except.error _ => ("", 0))) h
      simp only [] at hn
      refine ⟨turns, rfl, ?_, hn.symm⟩
      rw [← hc, hn]
  · intro hf
    rw [erstelltLine.eq_def, if_neg (by rw [hf]; exact Bool.false_ne_true)]
  · intro ht
    cases inserted with
    | null => exact ⟨_, by rw [erstelltLine.eq_def, if_pos ht]⟩
    | bool b => exact ⟨_, by rw [erstelltLine.eq_def, if_pos ht]⟩
    | num m => exact ⟨_, by rw [erstelltLine.eq_def, if_pos ht]⟩
    | str s => exact ⟨_, by rw [erstelltLine.eq_def, if_pos ht]⟩
    | arr xs => exact ⟨_, by rw [erstelltLine.eq_def, if_pos ht]⟩
    | obj fs => exact ⟨_, by rw [erstelltLine.eq_def, if_pos ht]⟩

/-- Witness for `C7_markdown_structure` on a concrete thread. -/
theorem C7_markdown_structure_witness :
    ∃ c n, threadFileContent (fun _ => none) none "T" (JValue.str "id1")
        (JValue.str "") "001_T.md" [] = .ok (c, n) ∧
      (pyTruthy (JValue.str "") = false →
        erstelltLine (fun _ => none) (JValue.str "") = "") :=
  ⟨_, _, rfl, (C7_markdown_structure (fun _ => none) none "T" (JValue.str "id1")
      (JValue.str "") "001_T.md" [] _ _ rfl).2.1⟩

/-! ### Index aggregates -/

theorem concatStrings_append (a b : List String) :
    concatStrings (a ++ b) = concatStrings a ++ concatStrings b := by
  induction a with
  | nil => simp [concatStrings]
  | cons x t ih =>
    rw [List.cons_append]
    show x ++ concatStrings (t ++ b) = (x ++ concatStrings t) ++ concatStrings b
    rw [ih, String.append_assoc]

theorem concatStrings_singleton (x : String) : concatStrings [x] = x := by
  simp [concatStrings]

theorem pyMaxBy_mem (f : Row → Nat) :
    ∀ (xs : List Row) (x : Row), pyMaxBy f x xs ∈ x :: xs := by
  intro xs
  induction xs with
  | nil => intro x; simp [pyMaxBy]
  | cons y t ih =>
    intro x
    simp only [pyMaxBy, List.foldl_cons]
    have h2 := ih (if f x < f y then y else x)
    rw [pyMaxBy] at h2
    by_cases h : f x < f y
    · rw [if_pos h] at h2 ⊢
      exact List.mem_cons_of_mem x h2
    · rw [if_neg h] at h2 ⊢
      rcases List.mem_cons.1 h2 with h3 | h3
      · rw [h3]
        exact List.mem_cons_self _ _
      · exact List.mem_cons_of_mem x (List.mem_cons_of_mem y h3)

theorem pyMaxBy_le (f : Row → Nat) :
    ∀ (xs : List Row) (x : Row), ∀ r ∈ x :: xs, f r ≤ f (pyMaxBy f x xs) := by
  intro xs
  induction xs with
  | nil =>
    intro x r hr
    rcases List.mem_cons.1 hr with h | h
    · subst h; simp [pyMaxBy]
    · simp at h
  | cons y t ih =>
    intro x r hr
    simp only [pyMaxBy, List.foldl_cons]
    have hstep1 : f x ≤ f (if f x < f y then y else x) := by
      by_cases h : f x < f y
      · rw [if_pos h]; omega
      · rw [if_neg h]
    have hstep2 : f y ≤ f (if f x < f y then y else x) := by
      by_cases h : f x < f y
      · rw [if_pos h]
      · rw [if_neg h]; omega
    have htop : f (if f x < f y then y else x)
        ≤ f (List.foldl (fun cur z => if f cur < f z then z else cur)
            (if f x < f y then y else x) t) := by
      have := ih (if f x < f y then y else x) (if f x < f y then y else x)
        (List.mem_cons_self _ _)
      rw [pyMaxBy] at this
      exact this
    rcases List.mem_cons.1 hr with h1 | h1
    · subst h1; omega
    · rcases List.mem_cons.1 h1 with h2 | h2
      · subst h2; omega
      · have := ih (if f x < f y then y else x) r (List.mem_cons_of_mem _ h2)
        rw [pyMaxBy] at this
        exact this

theorem pyMinBy_mem (f : Row → Nat) :
    ∀ (xs : List Row) (x : Row), pyMinBy f x xs ∈ x :: xs := by
  intro xs
  induction xs with
  | nil => intro x; simp [pyMinBy]
  | cons y t ih =>
    intro x
    simp only [pyMinBy, List.foldl_cons]
    have h2 := ih (if f y < f x then y else x)
    rw [pyMinBy] at h2
    by_cases h : f y < f x
    · rw [if_pos h] at h2 ⊢
      exact List.mem_cons_of_mem x h2
    · rw [if_neg h] at h2 ⊢
      rcases List.mem_cons.1 h2 with h3 | h3
      · rw [h3]
        exact List.mem_cons_self _ _
      · exact List.mem_cons_of_mem x (List.mem_cons_of_mem y h3)

theorem pyMinBy_le (f : Row → Nat) :
    ∀ (xs : List Row) (x : Row), ∀ r ∈ x :: xs, f (pyMinBy f x xs) ≤ f r := by
  intro xs
  induction xs with
  | nil =>
    intro x r hr
    rcases List.mem_cons.1 hr with h | h
    · subst h; simp [pyMinBy]
    · simp at h
  | cons y t ih =>
    intro x r hr
    simp only [pyMinBy, List.foldl_cons]
    have hstep1 : f (if f y < f x then y else x) ≤ f x := by
      by_cases h : f y < f x
      · rw [if_pos h]; omega
      · rw [if_neg h]
    have hstep2 : f (if f y < f x then y else x) ≤ f y := by
      by_cases h : f y < f x
      · rw [if_pos h]
      · rw [if_neg h]; omega
    have htop : f (List.foldl (fun cur z => if f z < f cur then z else cur)
            (if f y < f x then y else x) t)
        ≤ f (if f y < f x then y else x) := by
      have := ih (if f y < f x then y else x) (if f y < f x then y else x)
        (List.mem_cons_self _ _)
      rw [pyMinBy] at this
      exact this
    rcases List.mem_cons.1 hr with h1 | h1
    · subst h1; omega
    · rcases List.mem_cons.1 h1 with h2 | h2
      · subst h2; omega
      · have := ih (if f y < f x then y else x) r (List.mem_cons_of_mem _ h2)
        rw [pyMinBy] at this
        exact this

theorem exportLoop_stats (env : Env) (maxT maxM : Option Nat) :
    ∀ (l : List JValue) (idx : Nat) (st st2 : ExportState),
      exportLoop env maxT maxM idx l st = .ok st2 →
      st.totalThreads = st.rows.length →
      st.totalMessages = (st.rows.map Row.messages).sum →
      st.indexRows = concatStrings (st.rows.map (rowLine env)) →
      st2.totalThreads = st2.rows.length ∧
      st2.totalMessages = (st2.rows.map Row.messages).sum ∧
      st2.indexRows = concatStrings (st2.rows.map (rowLine env)) := by
  intro l
  induction l with
  | nil =>
    intro idx st st2 h h1 h2 h3
    rw [exportLoop.eq_def] at h
    dsimp only at h
    injection h with h4
    subst h4
    exact ⟨h1, h2, h3⟩
  | cons t rest ih =>
    intro idx st st2 h h1 h2 h3
    rw [exportLoop.eq_def] at h
    dsimp only at h
    by_cases hbreak : (optTruthy maxT && decide (maxT.getD 0 < idx)) = true
    · rw [if_pos hbreak] at h
      injection h with h4
      subst h4
      exact ⟨h1, h2, h3⟩
    · rw [if_neg hbreak] at h
      cases t with
      | obj fs =>
        dsimp only at h
        cases hT : getTitle fs idx with
        | error e => rw [hT] at h; exact Except.noConfusion h
        | ok title =>
          rw [hT] at h
          dsimp only at h
          cases hM : getMapping fs with
          | error e => rw [hM] at h; exact Except.noConfusion h
          | ok mapping =>
            rw [hM] at h
            dsimp only at h
            cases hC : threadFileContent env.fmtDate maxM title
                ((jLookup fs "id").getD (.str ""))
                ((jLookup fs "inserted_at").getD (.str ""))
                (threadFilename idx (sanitize_filename title true)) mapping with
            | error e => rw [hC] at h; exact Except.noConfusion h
            | ok cn =>
              rw [hC] at h
              refine ih (idx + 1) _ st2 h ?_ ?_ ?_
              · simp [h1]
              · simp [h2, List.sum_append]
              · simp only [List.map_append, List.map_cons, List.map_nil,
                  concatStrings_append, concatStrings_singleton, h3]
      | null => exact ih _ _ _ h h1 h2 h3
      | bool b => exact ih _ _ _ h h1 h2 h3
      | num n => exact ih _ _ _ h h1 h2 h3
      | str s => exact ih _ _ _ h h1 h2 h3
      | arr xs => exact ih _ _ _ h h1 h2 h3

set_option maxHeartbeats 1000000 in
/-- **C5** (confirmed).  The emitted index is the header, one table row
per exported thread (filename, title, message count, size), and the
aggregate section; in the aggregates the exported-thread count equals
the number of rows, the total message count is the sum of the per-row
counts, the total size (as rendered by `indexFooter`) is the sum of the
per-row sizes, the reported largest/smallest files are rows of maximal
and minimal size, and those two lines appear exactly when at least one
thread was exported. -/
theorem C5_index_aggregates (env : Env) (r1 : ReadOutcome) (r2 : Except Unit JValue)
    (maxT maxM : Option Nat) (out : ExportOutput)
    (h : export_threads env r1 r2 maxT maxM = .done out) :
    (∃ tc, out.indexContent =
      indexHeader env tc ++ concatStrings (out.rows.map (rowLine env)) ++
      indexFooter env out.rows out.totalThreads out.totalMessages out.folder) ∧
    out.totalThreads = out.rows.length ∧
    out.totalMessages = (out.rows.map Row.messages).sum ∧
    (∀ lg, largestRow out.rows = some lg →
      lg ∈ out.rows ∧ ∀ r ∈ out.rows, r.sizeBytes ≤ lg.sizeBytes) ∧
    (∀ sm, smallestRow out.rows = some sm →
      sm ∈ out.rows ∧ ∀ r ∈ out.rows, sm.sizeBytes ≤ r.sizeBytes) ∧
    ((largestRow out.rows).isSome ↔ out.rows ≠ []) := by
  rw [export_threads.eq_def] at h
  cases hL : loadJson r1 r2 with
  | none => rw [hL] at h; exact ExportResult.noConfusion h
  | some data =>
    rw [hL] at h
    dsimp only at h
    generalize hDL : (match data with | JValue.arr xs => xs | v => [v]) = dl at h
    generalize hTC : (match data with | JValue.arr xs => xs.length | _ => (1 : Nat)) = tc at h
    revert h
    cases hE : exportLoop env maxT maxM 1 dl ⟨[], [], 0, 0, ""⟩ with
    | error e => intro h; exact ExportResult.noConfusion h
    | ok st =>
      intro h
      injection h with h4
      subst h4
      obtain ⟨i1, i2, i3⟩ := exportLoop_stats env maxT maxM dl 1 _ st hE rfl rfl rfl
      refine ⟨⟨tc, ?_⟩, i1, i2, ?_, ?_, ?_⟩
      · dsimp only
        rw [i3]
      · intro lg hlg
        cases hr : st.rows with
        | nil => rw [hr] at hlg; exact Option.noConfusion hlg
        | cons x xs =>
          rw [hr] at hlg
          rw [largestRow] at hlg
          injection hlg with h5
          subst h5
          exact ⟨pyMaxBy_mem Row.sizeBytes xs x, pyMaxBy_le Row.sizeBytes xs x⟩
      · intro sm hsm
        cases hr : st.rows with
        | nil => rw [hr] at hsm; exact Option.noConfusion hsm
        | cons x xs =>
          rw [hr] at hsm
          rw [smallestRow] at hsm
          injection hsm with h5
          subst h5
          exact ⟨pyMinBy_mem Row.sizeBytes xs x,
            fun r hr2 => pyMinBy_le Row.sizeBytes xs x r hr2⟩
      · dsimp only
        cases st.rows with
        | nil => simp [largestRow]
        | cons x xs => simp [largestRow]

/-- Witness for `C5_index_aggregates` on a concrete one-thread export. -/
theorem C5_index_aggregates_witness :
    ∃ out, export_threads envW (.ok (.arr [JValue.obj [("title", JValue.str "A")]]))
        (.error ()) none none = .done out ∧
      out.totalThreads = out.rows.length :=
  ⟨_, rfl, (C5_index_aggregates envW (.ok (.arr [JValue.obj [("title", JValue.str "A")]]))
      (.error ()) none none _ rfl).2.1⟩

/-! ### Distinct filenames -/

theorem exportLoop_filenames (env : Env) (maxT maxM : Option Nat) :
    ∀ (l : List JValue) (idx : Nat) (st st2 : ExportState),
      exportLoop env maxT maxM idx l st = .ok st2 →
      (∀ r ∈ st.rows, r.idx < idx ∧ ∃ t, r.filename = threadFilename r.idx t) →
      List.Pairwise (fun a b => a.idx < b.idx) st.rows →
      st.files.map Prod.fst = st.rows.map Row.filename →
      (∀ r ∈ st2.rows, ∃ t, r.filename = threadFilename r.idx t) ∧
      List.Pairwise (fun a b => a.idx < b.idx) st2.rows ∧
      st2.files.map Prod.fst = st2.rows.map Row.filename := by
  intro l
  induction l with
  | nil =>
    intro idx st st2 h h1 h2 h3
    rw [exportLoop.eq_def] at h
    dsimp only at h
    injection h with h4
    subst h4
    exact ⟨fun r hr => (h1 r hr).2, h2, h3⟩
  | cons t rest ih =>
    intro idx st st2 h h1 h2 h3
    rw [exportLoop.eq_def] at h
    dsimp only at h
    by_cases hbreak : (optTruthy maxT && decide (maxT.getD 0 < idx)) = true
    · rw [if_pos hbreak] at h
      injection h with h4
      subst h4
      exact ⟨fun r hr => (h1 r hr).2, h2, h3⟩
    · rw [if_neg hbreak] at h
      have hmono : ∀ r ∈ st.rows, r.idx < idx + 1 ∧
          ∃ u, r.filename = threadFilename r.idx u :=
        fun r hr => ⟨Nat.lt_succ_of_lt (h1 r hr).1, (h1 r hr).2⟩
      cases t with
      | obj fs =>
        dsimp only at h
        cases hT : getTitle fs idx with
        | error e => rw [hT] at h; exact Except.noConfusion h
        | ok title =>
          rw [hT] at h
          dsimp only at h
          cases hM : getMapping fs with
          | error e => rw [hM] at h; exact Except.noConfusion h
          | ok mapping =>
            rw [hM] at h
            dsimp only at h
            cases hC : threadFileContent env.fmtDate maxM title
                ((jLookup fs "id").getD (.str ""))
                ((jLookup fs "inserted_at").getD (.str ""))
                (threadFilename idx (sanitize_filename title true)) mapping with
            | error e => rw [hC] at h; exact Except.noConfusion h
            | ok cn =>
              rw [hC] at h
              refine ih (idx + 1) _ st2 h ?_ ?_ ?_
              · intro r hr
                rcases List.mem_append.1 hr with hr1 | hr1
                · exact hmono r hr1
                · rcases List.mem_cons.1 hr1 with hr2 | hr2
                  · subst hr2
                    exact ⟨Nat.lt_succ_self idx, sanitize_filename title true, rfl⟩
                  · simp at hr2
              · rw [List.pairwise_append]
                refine ⟨h2, List.pairwise_singleton _ _, ?_⟩
                intro a ha b hb
                rcases List.mem_cons.1 hb with hb1 | hb1
                · subst hb1
                  exact (h1 a ha).1
                · simp at hb1
              · simp [h3]
      | null => exact ih _ _ _ h hmono h2 h3
      | bool b => exact ih _ _ _ h hmono h2 h3
      | num n => exact ih _ _ _ h hmono h2 h3
      | str s => exact ih _ _ _ h hmono h2 h3
      | arr xs => exact ih _ _ _ h hmono h2 h3

set_option maxHeartbeats 1000000 in
/-- **C10** (confirmed).  Within one run the generated thread filenames
are pairwise distinct — each carries its unique zero-padded 1-based
position as the prefix `{idx:03d}_`, even when two threads sanitize to
the same title — and none of them equals the index filename
`00_INDEX.md` (whose leading digit run is shorter than three
characters). -/
theorem C10_distinct_filenames (env : Env) (r1 : ReadOutcome) (r2 : Except Unit JValue)
    (maxT maxM : Option Nat) (out : ExportOutput)
    (h : export_threads env r1 r2 maxT maxM = .done out) :
    List.Pairwise (fun a b => a.filename ≠ b.filename) out.rows ∧
    (∀ r ∈ out.rows, r.filename ≠ "00_INDEX.md") ∧
    out.files.map Prod.fst = out.rows.map Row.filename := by
  rw [export_threads.eq_def] at h
  cases hL : loadJson r1 r2 with
  | none => rw [hL] at h; exact ExportResult.noConfusion h
  | some data =>
    rw [hL] at h
    dsimp only at h
    generalize hDL : (match data with | JValue.arr xs => xs | v => [v]) = dl at h
    generalize hTC : (match data with | JValue.arr xs => xs.length | _ => (1 : Nat)) = tc at h
    revert h
    cases hE : exportLoop env maxT maxM 1 dl ⟨[], [], 0, 0, ""⟩ with
    | error e => intro h; exact ExportResult.noConfusion h
    | ok st =>
      intro h
      injection h with h4
      subst h4
      obtain ⟨j1, j2, j3⟩ := exportLoop_filenames env maxT maxM dl 1 _ st hE
        (by simp) (by simp) (by simp)
      refine ⟨?_, ?_, j3⟩
      · refine List.Pairwise.imp_of_mem ?_ j2
        intro a b ha hb hlt
        obtain ⟨ta, hfa⟩ := j1 a ha
        obtain ⟨tb, hfb⟩ := j1 b hb
        rw [hfa, hfb]
        exact threadFilename_inj (Nat.ne_of_lt hlt)
      · intro r hrm
        obtain ⟨u, hf⟩ := j1 r hrm
        rw [hf]
        exact threadFilename_ne_index _ _

/-- Witness for `C10_distinct_filenames`: two threads with identical
titles still get distinct files. -/
theorem C10_distinct_filenames_witness :
    ∃ out, export_threads envW (.ok (.arr [JValue.obj [("title", JValue.str "A")],
        JValue.obj [("title", JValue.str "A")]])) (.error ()) none none = .done out ∧
      List.Pairwise (fun a b => a.filename ≠ b.filename) out.rows :=
  ⟨_, rfl, (C10_distinct_filenames envW (.ok (.arr [JValue.obj [("title", JValue.str "A")],
      JValue.obj [("title", JValue.str "A")]])) (.error ()) none none _ rfl).1⟩
